import Mathlib

/-!
Verification of the crowdsourcing device simulation (src/device.py).

The development shallowly embeds the Python source:

* class Barrier (lines 8 to 30): a reentrant barrier over a condition
  variable.  The whole body of the wait method runs while holding the
  condition lock, so one call to wait is one atomic step on the barrier
  state; threads blocked inside cond.wait are recorded in a waiting list
  and the notify_all of the final arrival is recorded as a release event
  listing every thread of the cycle that proceeds.
* the class level lock registry Device.locks and its initialization in
  Device.setup_devices (lines 94 to 105); Python list indexing, with its
  negative-index wrap-around, is embedded by pyGet.
* class Device (lines 40 to 150): sensor_data is a Python dict, embedded
  as an association list with dict lookup and dict update semantics;
  scripts, locations, nr_scripturi, script_crt and the two events are
  embedded directly.
* the worker loop DeviceThread.run (lines 179 to 248): the claim step of
  lines 199 to 206 (serialized by lock_script), the per worker claim loop,
  and the round reset of lines 241 to 243; the critical section of lines
  213 to 236 is embedded as a labelled transition system in which a worker
  acquires the lock of its location, gathers data, publishes the result
  and releases the lock.
-/

namespace DeviceSim

/-- State of the reentrant barrier of src/device.py lines 8 to 30.
num_threads and count_threads are the fields of the Python object
(count_threads counts down and is reset on release); waiting lists the
threads currently blocked inside cond.wait, in arrival order. -/
structure Barrier where
  num_threads : Int
  count_threads : Int
  waiting : List Nat
  deriving DecidableEq

/-- Constructor of the barrier (lines 11 to 15): it records the party
count and starts the countdown at that count; there is no validation. -/
def Barrier.init (n : Int) : Barrier :=
  ⟨n, n, []⟩

/-- One call of Barrier.wait by thread t (lines 17 to 30), atomic because
the whole body holds the condition lock.  The counter is decremented; if
it reaches zero the caller notifies all waiting threads and resets the
counter, producing a release event that lists every thread of the cycle
that now proceeds (the waiters plus the caller); otherwise the caller
joins the waiting list and blocks. -/
def Barrier.wait (b : Barrier) (t : Nat) : Barrier × Option (List Nat) :=
  if b.count_threads - 1 = 0 then
    (⟨b.num_threads, b.num_threads, []⟩, some (b.waiting ++ [t]))
  else
    (⟨b.num_threads, b.count_threads - 1, b.waiting ++ [t]⟩, none)

/-- Run a sequence of wait calls, collecting the release events. -/
def runWaits : Barrier → List Nat → Barrier × List (List Nat)
  | b, [] => (b, [])
  | b, t :: ts =>
    ((runWaits (b.wait t).1 ts).1, (b.wait t).2.toList ++ (runWaits (b.wait t).1 ts).2)

/-- Barrier state in the middle of a cycle: the threads of pre have
arrived and are blocked, the countdown stands at N minus their number. -/
def midB (N : Nat) (pre : List Nat) : Barrier :=
  ⟨(N : Int), (N : Int) - pre.length, pre⟩

theorem runWaits_cons (b : Barrier) (t : Nat) (ts : List Nat) :
    runWaits b (t :: ts) =
      ((runWaits (b.wait t).1 ts).1, (b.wait t).2.toList ++ (runWaits (b.wait t).1 ts).2) :=
  rfl

theorem runWaits_append (b : Barrier) (xs ys : List Nat) :
    runWaits b (xs ++ ys) =
      ((runWaits (runWaits b xs).1 ys).1,
        (runWaits b xs).2 ++ (runWaits (runWaits b xs).1 ys).2) := by
  induction xs generalizing b with
  | nil => simp [runWaits]
  | cons t xs ih => simp [runWaits, ih]

theorem runWaits_partial (N : Nat) :
    ∀ (ts pre : List Nat), pre.length + ts.length < N →
      runWaits (midB N pre) ts = (midB N (pre ++ ts), []) := by
  intro ts
  induction ts with
  | nil => intro pre _; simp [runWaits]
  | cons t ts ih =>
    intro pre h
    have hne : ((N : Int) - pre.length) - 1 ≠ 0 := by
      simp only [List.length_cons] at h
      have : (pre.length : Int) + 1 < (N : Int) := by exact_mod_cast by omega
      omega
    have hstep : (midB N pre).wait t = (midB N (pre ++ [t]), none) := by
      simp only [Barrier.wait, midB, if_neg hne]
      simp; omega
    have hrec := ih (pre ++ [t]) (by simp at h ⊢; omega)
    simp only [runWaits, hstep, Option.toList, List.nil_append]
    rw [hrec]
    simp

theorem runWaits_cycle (N : Nat) :
    ∀ (ts pre : List Nat), pre.length + ts.length = N → ts ≠ [] →
      runWaits (midB N pre) ts = (Barrier.init N, [pre ++ ts]) := by
  intro ts
  induction ts with
  | nil => intro pre _ hne; exact absurd rfl hne
  | cons t ts ih =>
    intro pre h _
    cases ts with
    | nil =>
      have hz : ((N : Int) - pre.length) - 1 = 0 := by
        simp only [List.length_cons, List.length_nil] at h
        have : (pre.length : Int) + 1 = (N : Int) := by exact_mod_cast h
        omega
      have hstep : (midB N pre).wait t = (Barrier.init N, some (pre ++ [t])) := by
        simp [Barrier.wait, midB, hz, Barrier.init]
      simp [runWaits, hstep]
    | cons t2 ts2 =>
      have hlt : pre.length + 1 < N := by
        simp only [List.length_cons] at h
        omega
      have hne : ((N : Int) - pre.length) - 1 ≠ 0 := by
        have : (pre.length : Int) + 1 < (N : Int) := by exact_mod_cast hlt
        omega
      have hstep : (midB N pre).wait t = (midB N (pre ++ [t]), none) := by
        simp only [Barrier.wait, midB, if_neg hne]
        simp; omega
      have hrec := ih (pre ++ [t]) (by simp at h ⊢; omega) (by simp)
      rw [runWaits_cons, hstep]
      simp only [Option.toList, List.nil_append]
      rw [hrec]
      simp

theorem init_eq_midB (N : Nat) : Barrier.init (N : Int) = midB N [] := by
  simp [Barrier.init, midB]

/-- C2: for every party count N at least 1, a fresh barrier run through one
cycle of N wait calls produces exactly one release event, releasing exactly
the N arrivals of that cycle, and ends in the fresh state again (counter
reset to N, nobody left waiting), so it is immediately reusable; running a
second cycle of N further arrivals produces exactly one further release
event containing exactly the second cycle, so no thread of cycle two is
released by the arrivals of cycle one; and any run of fewer than N arrivals
from the fresh state produces no release event at all, so no waiter is
released before the Nth arrival. -/
theorem barrier_cycle_spec (N : Nat) (ts1 ts2 : List Nat) (hN : 1 ≤ N)
    (h1 : ts1.length = N) (h2 : ts2.length = N) :
    runWaits (Barrier.init (N : Int)) ts1 = (Barrier.init (N : Int), [ts1]) ∧
    runWaits (Barrier.init (N : Int)) (ts1 ++ ts2) = (Barrier.init (N : Int), [ts1, ts2]) ∧
    ∀ pre : List Nat, pre.length < N → (runWaits (Barrier.init (N : Int)) pre).2 = [] := by
  have hts1 : ts1 ≠ [] := by
    intro hcon; rw [hcon] at h1; simp at h1; omega
  have hts2 : ts2 ≠ [] := by
    intro hcon; rw [hcon] at h2; simp at h2; omega
  have hc1 : runWaits (Barrier.init (N : Int)) ts1 = (Barrier.init (N : Int), [ts1]) := by
    rw [init_eq_midB]
    have := runWaits_cycle N ts1 [] (by simpa using h1) hts1
    simpa using this
  refine ⟨hc1, ?_, ?_⟩
  · rw [runWaits_append, hc1]
    have hc2 : runWaits (Barrier.init (N : Int)) ts2 = (Barrier.init (N : Int), [ts2]) := by
      rw [init_eq_midB]
      have := runWaits_cycle N ts2 [] (by simpa using h2) hts2
      simpa using this
    simp [hc2]
  · intro pre hpre
    rw [init_eq_midB]
    have := runWaits_partial N pre [] (by simpa using hpre)
    simp [this]

theorem barrier_cycle_spec_witness :
    runWaits (Barrier.init ((2 : Nat) : Int)) ([0, 1] ++ [2, 3]) =
      (Barrier.init ((2 : Nat) : Int), [[0, 1], [2, 3]]) ∧
    (runWaits (Barrier.init ((2 : Nat) : Int)) [7]).2 = [] := by
  have h := barrier_cycle_spec 2 [0, 1] [2, 3] (by decide) (by decide) (by decide)
  exact ⟨h.2.1, h.2.2 [7] (by decide)⟩

/-- C6 counterexample: construction of a barrier with the non-positive
party count 0 does not fail at all (the source constructor performs no
validation): it succeeds and merely records the count, and the resulting
barrier then fails to release its first waiter.  The source itself relies
on this: the class level field Device.bariera_devices is built by the
default call Barrier() with party count 0. -/
theorem barrier_init_cex :
    Barrier.init 0 = ⟨0, 0, []⟩ ∧ ((Barrier.init 0).wait 0).2 = none := by
  constructor
  · rfl
  · decide

/-- C6 amended: constructing a barrier with a non-positive party count
does not fail fast; construction succeeds for every party count, merely
recording it as both the party count and the countdown, and a barrier so
constructed never releases on a first wait call (the decrement cannot
reach zero from a non-positive count). -/
theorem barrier_init_spec (n : Int) (t : Nat) (hn : n ≤ 0) :
    Barrier.init n = ⟨n, n, []⟩ ∧ ((Barrier.init n).wait t).2 = none := by
  refine ⟨rfl, ?_⟩
  simp only [Barrier.init, Barrier.wait]
  rw [if_neg (by omega)]

theorem barrier_init_spec_witness :
    (-3 : Int) ≤ 0 ∧ ((Barrier.init (-3)).wait 5).2 = none :=
  ⟨by decide, (barrier_init_spec (-3) 5 (by decide)).2⟩

/-- Python list indexing, as used by Device.locks[location] at line 213:
a non-negative index within bounds returns that element, an index at or
beyond the length raises IndexError (embedded as none), and a negative
index counts from the back, wrapping to length + i when that is still
non-negative and raising IndexError otherwise. -/
def pyGet {α : Type} (l : List α) (i : Int) : Option α :=
  if 0 ≤ i then l.get? i.toNat
  else if 0 ≤ (l.length : Int) + i then l.get? ((l.length : Int) + i).toNat
  else none

/-- Lock registry initialization of Device.setup_devices, lines 103 to
105: if the class level list Device.locks is still empty, one fresh lock
per known location is appended to it; otherwise the call leaves it alone.
Locks are identified by their position in the registry. -/
def setup_locks (locks : List Nat) (num_locations : Nat) : List Nat :=
  if locks = [] then List.range num_locations else locks

/-- Acquisition of the per location lock at line 213, Device.locks
acquired at [location]: the result names which registry slot was taken,
none meaning the lookup raised IndexError before any lock was touched. -/
def acquire_lock (locks : List Nat) (location : Int) : Option Nat :=
  pyGet locks location

/-- C5 counterexample: with a one-entry registry, the out-of-range
location index -1 does not signal any fault: Python negative indexing
silently acquires the lock of location 0, a different location than the
one requested. -/
theorem acquire_lock_negative_cex :
    acquire_lock (setup_locks [] 1) (-1) = some 0 ∧ (0 : Int) ≠ -1 := by
  constructor
  · rfl
  · decide

/-- C5 amended: acquiring a location index at or above the registry size,
or below minus the size, raises IndexError at the call site; but a
negative index no smaller than minus the size does not fault: it silently
acquires the lock of slot size + index (Python wrap-around), which is a
lock for a different location than the one requested; a non-negative
in-range index acquires exactly the lock of that location. -/
theorem acquire_lock_range_spec (n : Nat) (loc : Int) :
    ((loc < -(n : Int) ∨ (n : Int) ≤ loc) → acquire_lock (setup_locks [] n) loc = none) ∧
    (-(n : Int) ≤ loc → loc < 0 →
      acquire_lock (setup_locks [] n) loc = some ((n : Int) + loc).toNat) ∧
    (0 ≤ loc → loc < (n : Int) → acquire_lock (setup_locks [] n) loc = some loc.toNat) := by
  have hreg : setup_locks [] n = List.range n := by simp [setup_locks]
  refine ⟨?_, ?_, ?_⟩
  · intro h
    rcases h with h | h
    · have h0 : ¬ 0 ≤ loc := by omega
      have h1 : ¬ 0 ≤ (n : Int) + loc := by omega
      simp only [acquire_lock, hreg, pyGet, List.length_range]
      rw [if_neg h0, if_neg h1]
    · have h0 : 0 ≤ loc := by omega
      have hge2 : (List.range n).length ≤ loc.toNat := by
        simp only [List.length_range]; omega
      simp only [acquire_lock, hreg, pyGet, List.length_range]
      rw [if_pos h0]
      exact List.get?_eq_none.mpr hge2
  · intro hge hlt
    have h0 : ¬ 0 ≤ loc := by omega
    have h1 : 0 ≤ (n : Int) + loc := by omega
    have hidx : ((n : Int) + loc).toNat < n := by omega
    simp only [acquire_lock, hreg, pyGet, List.length_range]
    rw [if_neg h0, if_pos h1]
    exact List.get?_range hidx
  · intro h0 hlt
    have hidx : loc.toNat < n := by omega
    simp only [acquire_lock, hreg, pyGet, List.length_range]
    rw [if_pos h0]
    exact List.get?_range hidx

theorem acquire_lock_range_spec_witness :
    acquire_lock (setup_locks [] 2) (-1) = some (((2 : Nat) : Int) + -1).toNat ∧
    acquire_lock (setup_locks [] 2) 5 = none :=
  ⟨(acquire_lock_range_spec 2 (-1)).2.1 (by decide) (by decide),
   (acquire_lock_range_spec 2 5).1 (Or.inr (by decide))⟩

/-- C7: the lock registry initialization is lazy, idempotent and
first-writer-wins: from the empty class level list the first setup call
creates exactly one lock per known location; a call finding a non-empty
registry leaves it exactly as it is; repeating the setup with the same
location count changes nothing; and once the registry is non-empty (any
positive location count), no later call with any count whatsoever can
re-allocate or grow it. -/
theorem setup_locks_spec (n m : Nat) (l : List Nat) :
    (setup_locks [] n).length = n ∧
    (l ≠ [] → setup_locks l n = l) ∧
    setup_locks (setup_locks [] n) n = setup_locks [] n ∧
    (0 < n → setup_locks (setup_locks [] n) m = setup_locks [] n) := by
  refine ⟨by simp [setup_locks], fun h => by simp [setup_locks, h], ?_, ?_⟩
  · by_cases h : n = 0
    · simp [setup_locks, h]
    · simp [setup_locks, List.range_eq_nil, h]
  · intro h
    have hne : ¬ n = 0 := by omega
    simp [setup_locks, List.range_eq_nil, hne]

theorem setup_locks_spec_witness :
    ([7] : List Nat) ≠ [] ∧ setup_locks [7] 4 = [7] ∧
    setup_locks (setup_locks [] 4) 9 = setup_locks [] 4 :=
  ⟨by decide, (setup_locks_spec 4 9 [7]).2.1 (by decide),
   (setup_locks_spec 4 9 [7]).2.2.2 (by decide)⟩

/-- Lookup in a Python dict embedded as an association list: the value of
the first entry whose key matches, as in sensor_data[location]. -/
def dictLookup {V : Type} (location : Int) : List (Int × V) → Option V
  | [] => none
  | (k, v) :: rest => if location = k then some v else dictLookup location rest

/-- The per round mutable state of class Device (lines 40 to 83), with S
the type of the opaque script objects and V the type of the readings:
sensor_data is the dict of per location readings, scripts and locations
the two parallel assignment lists fed by assign_script, nr_scripturi the
assignment count, script_crt the claim cursor, and the two booleans the
set or cleared state of the events timepoint_done and event_neighbours. -/
structure Device (S V : Type) where
  sensor_data : List (Int × V)
  scripts : List S
  locations : List Int
  nr_scripturi : Nat
  script_crt : Nat
  timepoint_done : Bool
  event_neighbours : Bool
  deriving DecidableEq

/-- Device.assign_script (lines 107 to 124): a real script is appended to
the scripts list, its location to the locations list, and the count grows
by one; the sentinel None instead sets the timepoint_done event. -/
def assign_script {S V : Type} (d : Device S V) (script : Option S) (location : Int) :
    Device S V :=
  match script with
  | some s =>
      { d with
        scripts := d.scripts ++ [s]
        locations := d.locations ++ [location]
        nr_scripturi := d.nr_scripturi + 1 }
  | none => { d with timepoint_done := true }

/-- Device.get_data (lines 126 to 137): the reading for the location if
the device knows it, None otherwise. -/
def get_data {S V : Type} (d : Device S V) (location : Int) : Option V :=
  dictLookup location d.sensor_data

/-- Device.set_data (lines 139 to 150): if the location is a key of
sensor_data its value is overwritten, otherwise nothing happens. -/
def set_data {S V : Type} (d : Device S V) (location : Int) (data : V) : Device S V :=
  if (dictLookup location d.sensor_data).isSome then
    { d with
      sensor_data := d.sensor_data.map fun p => (p.1, if p.1 = location then data else p.2) }
  else d

/-- The per round reset performed by the coordinator thread between the
two intra device barrier waits (lines 241 to 243): it clears the two
events and touches nothing else. -/
def roundReset {S V : Type} (d : Device S V) : Device S V :=
  { d with event_neighbours := false, timepoint_done := false }

/-- Round start bookkeeping of the coordinator thread (lines 184 to 186):
the claim cursor is reset to zero and event_neighbours is set (the fetch
of the neighbour list itself involves the external supervisor and is not
needed by the claims). -/
def startRound {S V : Type} (d : Device S V) : Device S V :=
  { d with script_crt := 0, event_neighbours := true }

theorem dictLookup_map_set {V : Type} (xs : List (Int × V)) (loc tgt : Int) (v : V) :
    dictLookup tgt (xs.map fun p => (p.1, if p.1 = loc then v else p.2)) =
      if tgt = loc then Option.map (fun _ => v) (dictLookup loc xs)
      else dictLookup tgt xs := by
  induction xs with
  | nil => by_cases h : tgt = loc <;> simp [dictLookup, h]
  | cons p rest ih =>
    obtain ⟨k, w⟩ := p
    by_cases ht : tgt = k
    · subst ht
      by_cases hk : tgt = loc
      · subst hk; simp [dictLookup]
      · simp [dictLookup, hk]
    · by_cases hk : k = loc
      · subst hk
        have htl : ¬ tgt = k := ht
        simp [dictLookup, ht, htl, ih]
      · have hlk : ¬ loc = k := fun hcon => hk hcon.symm
        simp [dictLookup, ht, hk, hlk, ih]

theorem map_fst_set {V : Type} (xs : List (Int × V)) (loc : Int) (v : V) :
    (xs.map fun p => (p.1, if p.1 = loc then v else p.2)).map Prod.fst =
      xs.map Prod.fst := by
  induction xs with
  | nil => rfl
  | cons p rest ih =>
    obtain ⟨k, w⟩ := p
    simp [ih]

theorem dictLookup_eq_none_keys {V : Type} (xs : List (Int × V)) (loc : Int) :
    dictLookup loc xs = none ↔ loc ∉ xs.map Prod.fst := by
  induction xs with
  | nil => simp [dictLookup]
  | cons p rest ih =>
    obtain ⟨k, w⟩ := p
    by_cases h : loc = k <;> simp [dictLookup, h, ih]

theorem dictLookup_mem {V : Type} (xs : List (Int × V)) (loc : Int) (v : V)
    (h : dictLookup loc xs = some v) : (loc, v) ∈ xs := by
  induction xs with
  | nil => simp [dictLookup] at h
  | cons p rest ih =>
    obtain ⟨k, w⟩ := p
    by_cases hk : loc = k
    · subst hk
      have h2 : w = v := by simpa [dictLookup] using h
      subst h2
      exact List.mem_cons_self _ _
    · simp only [dictLookup, if_neg hk] at h
      exact List.mem_cons_of_mem _ (ih h)

theorem dictLookup_of_mem_nodup {V : Type} (xs : List (Int × V)) (loc : Int) (v : V)
    (hnd : (xs.map Prod.fst).Nodup) (h : (loc, v) ∈ xs) :
    dictLookup loc xs = some v := by
  induction xs with
  | nil => simp at h
  | cons p rest ih =>
    obtain ⟨k, w⟩ := p
    simp only [List.map_cons, List.nodup_cons] at hnd
    rcases List.mem_cons.mp h with heq | hmem
    · injection heq with h1 h2
      subst h1; subst h2
      simp [dictLookup]
    · have hne : loc ≠ k := by
        intro hcon
        exact hnd.1 (List.mem_map.mpr ⟨(loc, v), hmem, hcon⟩)
      simp only [dictLookup, if_neg hne]
      exact ih hnd.2 hmem

/-- C8: assigning a real script appends exactly that script and its
location at the end of the two parallel assignment lists, viewed as the
list of pairs, grows the assignment count by one and leaves the
assignment-complete event, the sensor data and the claim cursor
untouched; assigning the sentinel None sets the assignment-complete event
and leaves both assignment lists and the count untouched. -/
theorem assign_script_spec {S V : Type} (d : Device S V) (s : S) (l : Int)
    (hlen : d.scripts.length = d.locations.length) :
    (assign_script d (some s) l).scripts = d.scripts ++ [s] ∧
    (assign_script d (some s) l).locations = d.locations ++ [l] ∧
    (assign_script d (some s) l).nr_scripturi = d.nr_scripturi + 1 ∧
    (assign_script d (some s) l).timepoint_done = d.timepoint_done ∧
    (assign_script d (some s) l).sensor_data = d.sensor_data ∧
    (assign_script d (some s) l).script_crt = d.script_crt ∧
    (assign_script d (some s) l).scripts.zip (assign_script d (some s) l).locations =
      d.scripts.zip d.locations ++ [(s, l)] ∧
    (assign_script d none l).timepoint_done = true ∧
    (assign_script d none l).scripts = d.scripts ∧
    (assign_script d none l).locations = d.locations ∧
    (assign_script d none l).nr_scripturi = d.nr_scripturi := by
  refine ⟨rfl, rfl, rfl, rfl, rfl, rfl, ?_, rfl, rfl, rfl, rfl⟩
  simp only [assign_script]
  rw [List.zip_append hlen]
  rfl

theorem assign_script_spec_witness :
    ((⟨[(0, 10)], [4], [2], 1, 0, false, true⟩ : Device Nat Int).scripts.length =
      (⟨[(0, 10)], [4], [2], 1, 0, false, true⟩ : Device Nat Int).locations.length) ∧
    (assign_script (⟨[(0, 10)], [4], [2], 1, 0, false, true⟩ : Device Nat Int)
        (some 9) 3).scripts.zip
      (assign_script (⟨[(0, 10)], [4], [2], 1, 0, false, true⟩ : Device Nat Int)
        (some 9) 3).locations = [(4, 2)] ++ [(9, 3)] :=
  ⟨by decide,
   by
    have h :=
      (assign_script_spec (⟨[(0, 10)], [4], [2], 1, 0, false, true⟩ : Device Nat Int)
        9 3 (by decide)).2.2.2.2.2.2.1
    simpa using h⟩

/-- C9: set_data is a no-op when the location is unknown to the device;
when the location is known it overwrites exactly that reading: the lookup
at the written location afterwards yields the new value, every other
location reads exactly as before, the key set of sensor_data is literally
unchanged (so presence of every location is preserved and no key is ever
added or removed), and no other field of the device is touched. -/
theorem set_data_spec {S V : Type} (d : Device S V) (loc : Int) (v : V) :
    (get_data d loc = none → set_data d loc v = d) ∧
    (∀ l2, l2 ≠ loc → get_data (set_data d loc v) l2 = get_data d l2) ∧
    (∀ w, get_data d loc = some w → get_data (set_data d loc v) loc = some v) ∧
    (set_data d loc v).sensor_data.map Prod.fst = d.sensor_data.map Prod.fst ∧
    (∀ l2, (get_data (set_data d loc v) l2).isSome = (get_data d l2).isSome) ∧
    (set_data d loc v).scripts = d.scripts ∧
    (set_data d loc v).timepoint_done = d.timepoint_done := by
  refine ⟨?_, ?_, ?_, ?_, ?_, ?_, ?_⟩
  · intro h
    simp [set_data, get_data] at h ⊢
    simp [h]
  · intro l2 hne
    by_cases h : (dictLookup loc d.sensor_data).isSome
    · simp only [set_data, if_pos h, get_data, dictLookup_map_set, if_neg hne]
    · simp [set_data, h]
  · intro w hw
    have h : (dictLookup loc d.sensor_data).isSome := by
      simp [get_data] at hw; simp [hw]
    simp only [set_data, if_pos h, get_data, dictLookup_map_set, if_pos rfl]
    simp only [get_data] at hw
    simp [hw]
  · by_cases h : (dictLookup loc d.sensor_data).isSome
    · simp only [set_data, if_pos h, map_fst_set]
    · simp [set_data, h]
  · intro l2
    by_cases h : (dictLookup loc d.sensor_data).isSome
    · by_cases hne : l2 = loc
      · subst hne
        simp only [set_data, if_pos h, get_data, dictLookup_map_set, if_pos rfl]
        simp [Option.isSome_map]
      · simp only [set_data, if_pos h, get_data, dictLookup_map_set, if_neg hne]
    · simp [set_data, h]
  · by_cases h : (dictLookup loc d.sensor_data).isSome <;> simp [set_data, h]
  · by_cases h : (dictLookup loc d.sensor_data).isSome <;> simp [set_data, h]

theorem set_data_spec_witness :
    get_data (set_data (⟨[(1, 5), (2, 6)], [], [], 0, 0, false, false⟩ : Device Nat Int)
      1 99) 2 =
      get_data (⟨[(1, 5), (2, 6)], [], [], 0, 0, false, false⟩ : Device Nat Int) 2 ∧
    get_data (set_data (⟨[(1, 5), (2, 6)], [], [], 0, 0, false, false⟩ : Device Nat Int)
      1 99) 1 = some 99 :=
  ⟨(set_data_spec (⟨[(1, 5), (2, 6)], [], [], 0, 0, false, false⟩ : Device Nat Int)
      1 99).2.1 2 (by decide),
   (set_data_spec (⟨[(1, 5), (2, 6)], [], [], 0, 0, false, false⟩ : Device Nat Int)
      1 99).2.2.1 5 (by decide)⟩

/-- C10: get_data returns the absent marker None exactly when the
location is missing from the key set of sensor_data; any returned value
is a reading actually stored for that location; and with the key set
duplicate-free, as holds for a Python dict, a stored reading is exactly
what get_data returns.  The accessor is a pure function of the device
state, so it leaves the device unchanged. -/
theorem get_data_spec {S V : Type} (d : Device S V) (loc : Int) :
    (get_data d loc = none ↔ loc ∉ d.sensor_data.map Prod.fst) ∧
    (∀ v, get_data d loc = some v → (loc, v) ∈ d.sensor_data) ∧
    ((d.sensor_data.map Prod.fst).Nodup →
      ∀ v, (loc, v) ∈ d.sensor_data → get_data d loc = some v) := by
  refine ⟨dictLookup_eq_none_keys _ _, ?_, ?_⟩
  · intro v h
    exact dictLookup_mem _ _ _ h
  · intro hnd v h
    exact dictLookup_of_mem_nodup _ _ _ hnd h

theorem get_data_spec_witness :
    get_data (⟨[(3, 8)], [], [], 0, 0, false, false⟩ : Device Nat Int) 3 = some 8 ∧
    get_data (⟨[(3, 8)], [], [], 0, 0, false, false⟩ : Device Nat Int) 4 = none :=
  ⟨(get_data_spec (⟨[(3, 8)], [], [], 0, 0, false, false⟩ : Device Nat Int) 3).2.2
      (by decide) 8 (by decide),
   (get_data_spec (⟨[(3, 8)], [], [], 0, 0, false, false⟩ : Device Nat Int) 4).1.mpr
      (by decide)⟩

/-- A single claim of the shared cursor, lines 199 to 206: under
lock_script the worker reads the cursor as its index and increments the
cursor; the claimed index is usable (some) exactly when it is below the
assignment count, otherwise the worker will break out (none).  The
increment happens in both cases. -/
def claimStep (nr crt : Nat) : Option Nat × Nat :=
  (if crt < nr then some crt else none, crt + 1)

/-- The claim loop of one worker within a round (the while of lines 197
to 236), starting from cursor value crt with nr assigned scripts: the
worker keeps claiming and processing indices until its first out-of-range
claim, at which point it breaks.  The result is the cursor value it
leaves behind and the list of indices it processed. -/
def workerClaims (nr crt : Nat) : Nat × List Nat :=
  if h : crt < nr then
    ((workerClaims nr (crt + 1)).1, crt :: (workerClaims nr (crt + 1)).2)
  else (crt + 1, [])
  termination_by nr - crt
  decreasing_by omega

/-- One round of claiming by a pool of T workers sharing the cursor, run
to completion one worker after the other (the claims themselves are
serialized by lock_script): the final cursor value and the concatenation
of all processed indices. -/
def runWorkers (nr : Nat) : Nat → Nat → Nat × List Nat
  | 0, crt => (crt, [])
  | t + 1, crt =>
    ((runWorkers nr t (workerClaims nr crt).1).1,
      (workerClaims nr crt).2 ++ (runWorkers nr t (workerClaims nr crt).1).2)

/-- Interleaved view of a round of claiming: a state is the shared cursor
paired with the number of workers still inside the claim loop; any still
active worker may take the next atomic claim, staying active on an
in-range index and leaving the loop on an out-of-range one. -/
inductive ClaimStep (nr : Nat) : Nat × Nat → Nat × Nat → Prop
  | claim_in (crt a : Nat) : crt < nr → ClaimStep nr (crt, a + 1) (crt + 1, a + 1)
  | claim_out (crt a : Nat) : nr ≤ crt → ClaimStep nr (crt, a + 1) (crt + 1, a)

theorem workerClaims_eq_aux :
    ∀ (k nr crt : Nat), nr - crt = k →
      workerClaims nr crt = (max nr crt + 1, List.range' crt (nr - crt)) := by
  intro k
  induction k with
  | zero =>
    intro nr crt hk
    have hge : ¬ crt < nr := by omega
    rw [workerClaims]
    simp only [hge, dite_false]
    have h1 : max nr crt = crt := by omega
    have h2 : nr - crt = 0 := by omega
    rw [h1, h2]
    rfl
  | succ k ih =>
    intro nr crt hk
    have hlt : crt < nr := by omega
    rw [workerClaims]
    simp only [hlt, dite_true]
    rw [ih nr (crt + 1) (by omega)]
    have h1 : max nr (crt + 1) = nr := by omega
    have h2 : max nr crt = nr := by omega
    have h3 : nr - crt = (nr - (crt + 1)) + 1 := by omega
    rw [h1, h2, h3, List.range'_succ]

theorem workerClaims_eq (nr crt : Nat) :
    workerClaims nr crt = (max nr crt + 1, List.range' crt (nr - crt)) :=
  workerClaims_eq_aux (nr - crt) nr crt rfl

theorem runWorkers_drained (nr : Nat) :
    ∀ (t crt : Nat), nr ≤ crt → runWorkers nr t crt = (crt + t, []) := by
  intro t
  induction t with
  | zero => intro crt _; simp [runWorkers]
  | succ t ih =>
    intro crt h
    have hw : workerClaims nr crt = (crt + 1, []) := by
      rw [workerClaims_eq]
      have h1 : max nr crt = crt := by omega
      have h2 : nr - crt = 0 := by omega
      rw [h1, h2]
      rfl
    simp only [runWorkers, hw, ih (crt + 1) (by omega)]
    simp
    omega

theorem runWorkers_full (nr t : Nat) (ht : 1 ≤ t) :
    runWorkers nr t 0 = (nr + t, List.range nr) := by
  obtain ⟨t0, rfl⟩ : ∃ t0, t = t0 + 1 := ⟨t - 1, by omega⟩
  have hw : workerClaims nr 0 = (nr + 1, List.range' 0 nr) := by
    rw [workerClaims_eq]
    have h1 : max nr 0 = nr := by omega
    rw [h1]
    simp
  simp only [runWorkers, hw, runWorkers_drained nr t0 (nr + 1) (by omega)]
  simp [List.range_eq_range']
  omega

theorem claimSys_inv (nr t : Nat) (p : Nat × Nat)
    (h : Relation.ReflTransGen (ClaimStep nr) (0, t) p) :
    p.2 ≤ t ∧ p.1 = min p.1 nr + (t - p.2) := by
  induction h with
  | refl => simp
  | tail hs hstep ih =>
    obtain ⟨ih1, ih2⟩ := ih
    cases hstep with
    | claim_in crt a hlt => simp at ih1 ih2 ⊢; omega
    | claim_out crt a hge => simp at ih1 ih2 ⊢; omega

/-- C3 counterexample: with an empty assignment list (length 0) a single
worker performs one claim, breaks, and leaves the cursor at 1, so the
claim cursor does exceed the length of the assignment list (the
terminating claim itself increments past the end). -/
theorem claim_cursor_cex :
    (runWorkers 0 1 0).1 = 1 ∧ ¬ (runWorkers 0 1 0).1 ≤ 0 := by
  have h := runWorkers_full 0 1 (by omega)
  simp at h
  simp [h]

/-- C3 amended: within a round the claim cursor strictly increases under
each claim (every claim, in range or not, moves it up by one); a worker
whose claimed index is at or past the assignment length breaks out at
once, processing nothing further (no lock acquisition, no data access);
the in-range indices 0 to length - 1 are each claimed exactly once
overall; and under any interleaving of T workers the cursor never exceeds
length + T, ending exactly at length + T when all workers have left the
loop, so it exceeds the assignment length by exactly one overshooting
claim per worker rather than never exceeding it. -/
theorem claim_cursor_spec (nr t crt : Nat) (ht : 1 ≤ t) :
    (claimStep nr crt).2 = crt + 1 ∧
    (nr ≤ crt → claimStep nr crt = (none, crt + 1)) ∧
    (nr ≤ crt → workerClaims nr crt = (crt + 1, [])) ∧
    runWorkers nr t 0 = (nr + t, List.range nr) ∧
    (∀ p : Nat × Nat, Relation.ReflTransGen (ClaimStep nr) (0, t) p →
      p.1 ≤ nr + t ∧ (p.2 = 0 → p.1 = nr + t)) := by
  refine ⟨rfl, ?_, ?_, runWorkers_full nr t ht, ?_⟩
  · intro h
    simp [claimStep]
    omega
  · intro h
    rw [workerClaims_eq]
    have h1 : max nr crt = crt := by omega
    have h2 : nr - crt = 0 := by omega
    rw [h1, h2]
    rfl
  · intro p hp
    have h := claimSys_inv nr t p hp
    exact ⟨by omega, fun h0 => by omega⟩

theorem claim_cursor_spec_witness :
    (claimStep 2 5).2 = 6 ∧ workerClaims 2 5 = (6, []) ∧
    runWorkers 2 3 0 = (5, List.range 2) :=
  ⟨(claim_cursor_spec 2 3 5 (by decide)).1,
   (claim_cursor_spec 2 3 5 (by decide)).2.2.1 (by decide),
   (claim_cursor_spec 2 3 5 (by decide)).2.2.2.1⟩

/-- C4 counterexample: a device holding one assigned script is put
through the round-transition reset and still holds it: the reset does not
produce an empty assignment state. -/
theorem round_reset_cex :
    (roundReset (⟨[(0, 10)], [7], [0], 1, 1, true, true⟩ : Device Nat Int)).scripts
      ≠ [] := by
  decide

/-- C4 amended: the round-transition reset clears exactly the two round
signals and nothing else: the assignment list, the location list, the
assignment count and the sensor data all persist unchanged into the next
round.  Only the claim cursor is cleared at the start of the next round,
so the next round claims every index from 0 to the assignment count
again: scripts assigned in round R are carried over and re-executed in
round R+1 (as the source docstring of assign_script states, a script is
executed from then on at each timepoint). -/
theorem round_reset_spec {S V : Type} (d : Device S V) (t : Nat) (ht : 1 ≤ t) :
    (roundReset d).scripts = d.scripts ∧
    (roundReset d).locations = d.locations ∧
    (roundReset d).nr_scripturi = d.nr_scripturi ∧
    (roundReset d).sensor_data = d.sensor_data ∧
    (roundReset d).event_neighbours = false ∧
    (roundReset d).timepoint_done = false ∧
    (startRound (roundReset d)).script_crt = 0 ∧
    (startRound (roundReset d)).scripts = d.scripts ∧
    runWorkers (startRound (roundReset d)).nr_scripturi t
        (startRound (roundReset d)).script_crt =
      (d.nr_scripturi + t, List.range d.nr_scripturi) :=
  ⟨rfl, rfl, rfl, rfl, rfl, rfl, rfl, rfl, runWorkers_full d.nr_scripturi t ht⟩

theorem round_reset_spec_witness :
    (roundReset (⟨[], [5], [9], 1, 1, true, true⟩ : Device Nat Int)).scripts =
      (⟨[], [5], [9], 1, 1, true, true⟩ : Device Nat Int).scripts ∧
    runWorkers
        (startRound (roundReset (⟨[], [5], [9], 1, 1, true, true⟩ :
          Device Nat Int))).nr_scripturi 2
        (startRound (roundReset (⟨[], [5], [9], 1, 1, true, true⟩ :
          Device Nat Int))).script_crt =
      ((⟨[], [5], [9], 1, 1, true, true⟩ : Device Nat Int).nr_scripturi + 2,
        List.range (⟨[], [5], [9], 1, 1, true, true⟩ : Device Nat Int).nr_scripturi) :=
  ⟨(round_reset_spec (⟨[], [5], [9], 1, 1, true, true⟩ : Device Nat Int) 2
      (by decide)).1,
   (round_reset_spec (⟨[], [5], [9], 1, 1, true, true⟩ : Device Nat Int) 2
      (by decide)).2.2.2.2.2.2.2.2⟩

/-- Position of one worker thread inside the claim-and-process body of
lines 209 to 236, for the location it claimed: before_lock covers lines
209 to 211 (script and location fetched, lock of the location not yet
acquired); gather covers lines 215 to 224 (lock held, neighbour and own
readings being collected); publish covers lines 226 to 234 (lock held,
script run and results written back to self and neighbours); finished
means the lock of line 236 has been released. -/
inductive Phase where
  | before_lock : Nat → Phase
  | gather : Nat → Phase
  | publish : Nat → Phase
  | finished : Phase
  deriving DecidableEq

/-- Global state of the claim-and-process protocol: the phase of every
worker (across all devices, indexed by a global worker id) and, for every
location, which worker currently holds the lock of the shared class level
registry Device.locks. -/
structure CSystem where
  phase : Nat → Phase
  lock : Nat → Option Nat

/-- Initial state: every worker stands before the lock acquisition for
the location it claimed, and no registry lock is held. -/
def initCS (assigned : Nat → Nat) : CSystem :=
  ⟨fun w => Phase.before_lock (assigned w), fun _ => none⟩

/-- Interleaved steps of the claim-and-process bodies.  A worker can
acquire the lock of its location only while no other worker holds that
lock (line 213, Lock.acquire blocks otherwise); it moves from gathering
to publishing while holding the lock; releasing the lock (line 236) ends
its critical section.  Reads of neighbour or own data happen only in the
gather phase and writes only in the publish phase, both strictly between
acquire and release. -/
inductive CStep : CSystem → CSystem → Prop
  | acquire (s : CSystem) (w loc : Nat) :
      s.phase w = Phase.before_lock loc → s.lock loc = none →
      CStep s ⟨Function.update s.phase w (Phase.gather loc),
               Function.update s.lock loc (some w)⟩
  | gather_to_publish (s : CSystem) (w loc : Nat) :
      s.phase w = Phase.gather loc →
      CStep s ⟨Function.update s.phase w (Phase.publish loc), s.lock⟩
  | release (s : CSystem) (w loc : Nat) :
      s.phase w = Phase.publish loc →
      CStep s ⟨Function.update s.phase w Phase.finished,
               Function.update s.lock loc none⟩

/-- A worker is inside the critical section for a location: it reads or
writes sensor data for that location only in these two phases. -/
def inCS (s : CSystem) (w loc : Nat) : Prop :=
  s.phase w = Phase.gather loc ∨ s.phase w = Phase.publish loc

/-- Every worker inside a critical section holds the lock of its
location. -/
def LockInv (s : CSystem) : Prop :=
  ∀ w loc, inCS s w loc → s.lock loc = some w

theorem lockInv_init (assigned : Nat → Nat) : LockInv (initCS assigned) := by
  intro w loc h
  rcases h with h | h <;> simp [initCS] at h

theorem lockInv_step {s t : CSystem} (hinv : LockInv s) (hstep : CStep s t) :
    LockInv t := by
  cases hstep with
  | acquire w loc hp hl =>
    intro w2 loc2 h2
    simp only [inCS, Function.update_apply] at h2
    show Function.update s.lock loc (some w) loc2 = some w2
    rw [Function.update_apply]
    by_cases hw : w2 = w
    · rw [if_pos hw] at h2
      rcases h2 with h2 | h2
      · have hloc : loc = loc2 := Phase.gather.inj h2
        rw [if_pos hloc.symm, hw]
      · exact absurd h2 (by simp)
    · rw [if_neg hw] at h2
      have hl2 := hinv w2 loc2 h2
      by_cases hloc : loc2 = loc
      · rw [hloc, hl] at hl2
        exact absurd hl2 (by simp)
      · rw [if_neg hloc]
        exact hl2
  | gather_to_publish w loc hp =>
    intro w2 loc2 h2
    simp only [inCS, Function.update_apply] at h2
    show s.lock loc2 = some w2
    by_cases hw : w2 = w
    · rw [if_pos hw] at h2
      rcases h2 with h2 | h2
      · exact absurd h2 (by simp)
      · have hloc : loc = loc2 := Phase.publish.inj h2
        rw [hw, ← hloc]
        exact hinv w loc (Or.inl hp)
    · rw [if_neg hw] at h2
      exact hinv w2 loc2 h2
  | release w loc hp =>
    intro w2 loc2 h2
    simp only [inCS, Function.update_apply] at h2
    show Function.update s.lock loc none loc2 = some w2
    rw [Function.update_apply]
    by_cases hw : w2 = w
    · rw [if_pos hw] at h2
      rcases h2 with h2 | h2 <;> exact absurd h2 (by simp)
    · rw [if_neg hw] at h2
      have hl2 := hinv w2 loc2 h2
      by_cases hloc : loc2 = loc
      · exfalso
        have hlw := hinv w loc (Or.inr hp)
        rw [hloc, hlw] at hl2
        exact hw (Option.some.inj hl2).symm
      · rw [if_neg hloc]
        exact hl2

/-- C1: in every state reachable from an initial state of the
claim-and-process protocol, a worker inside its critical section for a
location (gathering the neighbour and own readings, or running the script
and writing the result back) holds that location lock of the shared
registry, and at most one worker is inside a critical section for any
given location, system wide, whatever the number of workers and whatever
locations they target; since the reads happen only in the gather phase
and the writes only in the publish phase, the lock is acquired before any
read and released only after the write back, and two script executions
for the same location never interleave. -/
theorem location_lock_mutual_exclusion (assigned : Nat → Nat) (s : CSystem)
    (h : Relation.ReflTransGen CStep (initCS assigned) s) :
    (∀ w loc, inCS s w loc → s.lock loc = some w) ∧
    ∀ loc w1 w2, inCS s w1 loc → inCS s w2 loc → w1 = w2 := by
  have hinv : LockInv s := by
    induction h with
    | refl => exact lockInv_init assigned
    | tail hs hstep ih => exact lockInv_step ih hstep
  refine ⟨hinv, ?_⟩
  intro loc w1 w2 h1 h2
  have e1 := hinv w1 loc h1
  have e2 := hinv w2 loc h2
  rw [e1] at e2
  exact Option.some.inj e2

theorem location_lock_mutual_exclusion_witness :
    (⟨Function.update (initCS fun _ => 0).phase 0 (Phase.gather 0),
      Function.update (initCS fun _ => 0).lock 0 (some 0)⟩ : CSystem).lock 0 =
      some 0 :=
  (location_lock_mutual_exclusion (fun _ => 0)
      ⟨Function.update (initCS fun _ => 0).phase 0 (Phase.gather 0),
        Function.update (initCS fun _ => 0).lock 0 (some 0)⟩
      (Relation.ReflTransGen.single
        (CStep.acquire (initCS fun _ => 0) 0 0 rfl rfl))).1
    0 0 (Or.inl (by simp))

end DeviceSim
